import Mathlib

set_option maxRecDepth 10000

/-!
Shallow embedding of the storage core of `store/postgres/src/relational.rs`
(graph-node): the `Layout` data model (tables, columns, column types), the
versioning write path (`update`/`delete`/`revert_block`), the range-diff
extractor (`find_range`), the batched read path (`find_many`), the query
error translation, schema-to-column-type resolution, and the `LayoutCache`.

Database interactions are modelled by passing the result rows of the
statements a function would execute as explicit arguments (oracles), and by
returning the list of statements a function issues.  Machine integers are
modelled as `Int`/`Nat`; fallible code returns `Except`.
-/

namespace Relational

/-- Reference to where a subgraph deployment is stored: deployment hash,
database namespace (schema) and shard.  Mirrors `primary::Site` as used by
`relational.rs`. -/
structure Site where
  deployment : String
  nsp : String
  shard : String
deriving DecidableEq, Repr

/-- The part of `catalog::Catalog` that `relational.rs`'s claims depend on:
the site (whose namespace qualifies enum type names). -/
structure Catalog where
  site : Site
deriving DecidableEq, Repr

/-- The errors of the store, mirroring the `StoreError` variants that
`relational.rs` produces on the embedded code paths. -/
inductive StoreError where
  | invalidIdentifier (msg : String)
  | unknownTable (entity : String)
  | unknownField (table field : String)
  | unknownValueType (name : String)
  | internalError (msg : String)
  | writeFailure (underlying : String) (table : String) (block : Int) (details : String)
deriving DecidableEq, Repr

/-- A user-defined enum: the qualified Postgres enum name and the set of
values it can take (`EnumType` in `relational.rs`; the Rust `BTreeSet` of
values is modelled as a `Finset`). -/
structure EnumType where
  name : String
  values : Finset String
deriving DecidableEq

/-- `EnumType::is_assignable_from`: the source enum is assignable into
`self` iff its value set is a subset of `self`'s; otherwise one
incompatibility message is produced. -/
def EnumType.is_assignable_from (self source : EnumType) : Option String :=
  if source.values ⊆ self.values then
    none
  else
    some ("the enum type " ++ source.name ++ " contains values not present in " ++ self.name)

/-- The GraphQL field type AST (`q::Type`): a named base type, possibly
wrapped in non-null and list markers. -/
inductive QType where
  | named (name : String)
  | nonNull (inner : QType)
  | list (inner : QType)
deriving DecidableEq, Repr

/-- `q::Type::get_base_type`: strip non-null and list wrappers down to the
named base type. -/
def QType.get_base_type : QType → String
  | .named n => n
  | .nonNull t => t.get_base_type
  | .list t => t.get_base_type

/-- Modelled from the spec: `TypeExt::is_list` lives in the `graph` crate
outside the excerpt; per the spec a field type carries a list flag, which
for the GraphQL AST means a list wrapper possibly under a non-null
wrapper. -/
def QType.is_list : QType → Bool
  | .named _ => false
  | .nonNull t => t.is_list
  | .list _ => true

/-- Id storage kinds (`graph::data::store::IdType`): what a primary key can
be stored as. -/
inductive IdType where
  | bytes
  | string
  | int8
deriving DecidableEq, Repr

/-- The physical column types of `relational.rs` (`ColumnType`).  The
full-text configuration carried by `TSVector` is opaque to the embedded
claims and modelled as a string. -/
inductive ColumnType where
  | boolean
  | bigDecimal
  | bigInt
  | bytes
  | int
  | int8
  | timestamp
  | string
  | tsvector (config : String)
  | enum (enum_type : EnumType)
deriving DecidableEq

/-- `impl From<IdType> for ColumnType`. -/
def ColumnType.ofIdType : IdType → ColumnType
  | .bytes => .bytes
  | .string => .string
  | .int8 => .int8

/-- One column of an entity table (`Column` in `relational.rs`), with the
fields the embedded operations read. -/
structure Column where
  name : String
  field : String
  field_type : QType
  column_type : ColumnType
  is_reference : Bool
  use_prefix_comparison : Bool
deriving DecidableEq

/-- `Column::is_nullable`: a column is nullable unless its field type is
wrapped in a non-null marker. -/
def Column.is_nullable (c : Column) : Bool :=
  match c.field_type with
  | .nonNull _ => false
  | _ => true

/-- `Column::is_list`. -/
def Column.is_list (c : Column) : Bool :=
  c.field_type.is_list

/-- `Column::is_assignable_from`: nullability may only stay equal or loosen
(a non-null destination needs a non-null source); enum columns delegate to
`EnumType::is_assignable_from`; all other types and their list-ness must
match exactly. -/
def Column.is_assignable_from (self source : Column) (object : String) : Option String :=
  if !self.is_nullable && source.is_nullable then
    some ("The attribute " ++ object ++ "." ++ self.field ++
      " is non-nullable, but the corresponding attribute in the source is nullable")
  else
    match self.column_type with
    | .enum self_enum_type =>
      match source.column_type with
      | .enum source_enum_type => self_enum_type.is_assignable_from source_enum_type
      | _ =>
        some ("The attribute " ++ object ++ "." ++ self.field ++
          " is an enum, but its type in the source is not")
    | _ =>
      if self.column_type ≠ source.column_type || self.is_list ≠ source.is_list then
        some ("The attribute " ++ object ++ "." ++ self.field ++
          " has a type different from its type in the source")
      else
        none

/-- One entity table (`Table` in `relational.rs`). -/
structure Table where
  object : String
  nsp : String
  name : String
  qualified_name : String
  columns : List Column
  is_account_like : Bool
  position : Nat
  immutable : Bool
  has_causality_region : Bool
deriving DecidableEq

/-- `Table::column`: find a column by SQL name, skipping full-text
(tsvector) columns. -/
def Table.column (t : Table) (name : String) : Option Column :=
  (t.columns.filter fun c =>
    match c.column_type with
    | .tsvector _ => false
    | _ => true).find? fun c => c.name = name

/-- `Table::can_copy_from`: for every destination column, either the
same-named source column must be assignable into it, or, when there is no
source counterpart, the destination column must be nullable. -/
def Table.can_copy_from (self source : Table) : List String :=
  self.columns.filterMap fun dcol =>
    match source.column dcol.name with
    | some scol => dcol.is_assignable_from scol self.object
    | none =>
      if !dcol.is_nullable then
        some ("The attribute " ++ self.object ++ "." ++ dcol.field ++
          " is non-nullable, but there is no such attribute in the source")
      else
        none

/-- The layout of one subgraph deployment (`Layout` in `relational.rs`).
The Rust `HashMap<EntityType, Arc<Table>>` is modelled as a list of tables,
each stored under the key `Table.object`; `Arc` sharing of a table between
two layouts is value equality of the `Table`. -/
structure Layout where
  site : Site
  tables : List Table
  history_blocks : Int
deriving DecidableEq

/-- `Layout::table`: find a table by its SQL name (exact match). -/
def Layout.table (l : Layout) (name : String) : Option Table :=
  l.tables.find? fun t => t.name = name

/-- `Layout::table_for_entity`: look a table up by entity type, failing
with `UnknownTable`. -/
def Layout.table_for_entity (l : Layout) (entity : String) : Except StoreError Table :=
  match l.tables.find? (fun t => t.object = entity) with
  | some t => .ok t
  | none => .error (.unknownTable entity)

/-- `Layout::can_copy_from`: collect the incompatibilities of every
destination table that has a same-named table in the source layout;
destination tables without a source counterpart are skipped. -/
def Layout.can_copy_from (self base : Layout) : List String :=
  ((self.tables.filterMap fun dst =>
      (base.table dst.name).map fun src => (dst, src)).map
    fun p => p.1.can_copy_from p.2).flatten

/-- Modelled from the spec: the snake-casing of schema names is performed
by the external `Inflector` crate (`to_snake_case`), outside the excerpt;
the spec only requires that a schema name deterministically maps to an SQL
name.  This model lowercases and inserts an underscore before every
uppercase letter that follows another character. -/
def toSnakeCase (s : String) : String :=
  s.data.foldl
    (fun acc c =>
      if c.isUpper then
        (if acc.isEmpty then acc else acc ++ "_") ++ (Char.toLower c).toString
      else
        acc ++ c.toString)
    ""

/-- `SqlName::qualified_name`: quote and join namespace and name. -/
def SqlName.qualified_name (nsp name : String) : String :=
  "\"" ++ nsp ++ "\".\"" ++ name ++ "\""

/-- The scalar value types of the schema (`graph::data::store::ValueType`
restricted to scalars, which is what `ColumnType` resolution consumes). -/
inductive ValueType where
  | boolean
  | bigDecimal
  | bigInt
  | bytes
  | int
  | int8
  | timestamp
  | string
deriving DecidableEq, Repr

/-- Modelled from the spec: `ValueType::from_str` lives in the `graph`
crate outside the excerpt; per the spec, a scalar name resolves against the
fixed scalar set and an unrecognized name fails with an unknown-type
condition. -/
def ValueType.from_str (name : String) : Except StoreError ValueType :=
  if name = "Boolean" then .ok .boolean
  else if name = "BigDecimal" then .ok .bigDecimal
  else if name = "BigInt" then .ok .bigInt
  else if name = "Bytes" then .ok .bytes
  else if name = "Int" then .ok .int
  else if name = "Int8" then .ok .int8
  else if name = "Timestamp" then .ok .timestamp
  else if name = "String" then .ok .string
  else .error (.unknownValueType name)

/-- The `ColumnType` a scalar `ValueType` maps to (the final `match` of
`ColumnType::from_field_type`). -/
def ValueType.toColumnType : ValueType → ColumnType
  | .boolean => .boolean
  | .bigDecimal => .bigDecimal
  | .bigInt => .bigInt
  | .bytes => .bytes
  | .int => .int
  | .int8 => .int8
  | .timestamp => .timestamp
  | .string => .string

/-- The part of the validated `InputSchema` collaborator that
`ColumnType::from_field_type` consults: whether a name is an entity type
(and then what its id type resolution yields) and whether it is a
registered enum (and then its value set). -/
structure InputSchema where
  entity_id_type : String → Option (Except StoreError IdType)
  enum_values : String → Option (Finset String)

/-- `ColumnType::from_field_type`: resolve a field type in order — (a) an
entity type of the schema maps to its id storage kind, (b) a registered
enum maps to a namespace-qualified enum column type unless
`is_existing_text_column` degrades it to plain text, (c) otherwise the name
resolves against the fixed scalar set. -/
def ColumnType.from_field_type (schema : InputSchema) (field_type : QType) (catalog : Catalog)
    (is_existing_text_column : Bool) : Except StoreError ColumnType :=
  let name := field_type.get_base_type
  match schema.entity_id_type name with
  | some id_res =>
    match id_res with
    | .ok id_type => .ok (ColumnType.ofIdType id_type)
    | .error e => .error e
  | none =>
    match schema.enum_values name with
    | some values =>
      let ename := SqlName.qualified_name catalog.site.nsp (toSnakeCase name)
      if is_existing_text_column then
        .ok .string
      else
        .ok (.enum { name := ename, values := values })
    | none =>
      match ValueType.from_str name with
      | .ok vt => .ok vt.toColumnType
      | .error e => .error e

/-- `HashMap::insert` on the table map: replace the table stored under the
same `object` key, or add the table if the key is absent. -/
def tablesInsert (tables : List Table) (t : Table) : List Table :=
  if tables.any (fun u => u.object = t.object) then
    tables.map fun u => if u.object = t.object then t else u
  else
    tables ++ [t]

/-- `Layout::refresh`: given the freshly read catalog data (the set of
account-like table names and the history-blocks setting) and the site,
return `self` unchanged if nothing changed, and otherwise a new layout in
which the tables whose `is_account_like` flag changed are replaced and the
site and history-blocks are updated. -/
def Layout.refresh (self : Layout) (account_like : List String) (history_blocks : Int)
    (site : Site) : Layout :=
  let is_account_like := fun (t : Table) => account_like.contains t.name
  let changed_tables := self.tables.filter fun t => t.is_account_like != is_account_like t
  if changed_tables = [] ∧ site = self.site ∧ history_blocks = self.history_blocks then
    self
  else
    let tables := changed_tables.foldl
      (fun ts t => tablesInsert ts { t with is_account_like := is_account_like t })
      self.tables
    { self with tables := tables, site := site, history_blocks := history_blocks }

/-- One new entity version to insert, as `update`/`insert` see it: the
entity id and the block at which the version starts. -/
structure EntityRow where
  id : String
  block : Int
deriving DecidableEq, Repr

/-- Modelled from the spec: `RowGroup` lives in
`graph/src/components/store/write.rs`, outside the excerpt.  Per the spec a
row group is a batch of write operations against one entity type;
`clamps` is the result of `clamps_by_block` (for every block, the ids whose
open version must be closed there), `rows` are the new versions to insert,
and the batch contains close operations (`has_clamps`) iff `clamps` is
nonempty. -/
structure RowGroup where
  entity_type : String
  clamps : List (Int × List String)
  rows : List EntityRow
deriving DecidableEq, Repr

/-- `RowGroup::has_clamps`: whether the batch contains close (clamp)
operations. -/
def RowGroup.has_clamps (g : RowGroup) : Bool :=
  !g.clamps.isEmpty

/-- A statement issued against the database by the write path: either a
`ClampRangeQuery` (close the open versions of `ids` at `block`) or an
`InsertQuery` for a chunk of rows. -/
inductive SqlStatement where
  | clampRange (table : String) (ids : List String) (block : Int)
  | insertChunk (table : String) (rows : List EntityRow)
deriving DecidableEq, Repr

/-- `DELETE_OPERATION_CHUNK_SIZE`: ids per clamp statement in `delete`. -/
def DELETE_OPERATION_CHUNK_SIZE : Nat := 1000

/-- Split a list into consecutive chunks of at most `n` elements
(`slice::chunks` / `write_chunks`), by fuel-bounded recursion so that the
definition evaluates by kernel reduction. -/
def chunksOfGo (n : Nat) : Nat → List α → List (List α)
  | _, [] => []
  | 0, l => [l]
  | fuel + 1, l => l.take n :: chunksOfGo n fuel (l.drop n)

/-- Split a list into consecutive chunks of at most `n` elements. -/
def chunksOf (n : Nat) (l : List α) : List (List α) :=
  chunksOfGo n l.length l

/-- `Layout::update`.  The chunk size of the insert statements
(`InsertQuery::chunk_size`, outside the excerpt) and the database executor
result for each insert statement are oracles.  Returns the statements the
call issues together with the inserted-row count. -/
def Layout.update (l : Layout) (group : RowGroup) (chunk_size : Nat)
    (exec_insert : SqlStatement → Nat) : Except StoreError (List SqlStatement × Nat) :=
  match l.table_for_entity group.entity_type with
  | .error e => .error e
  | .ok table =>
    if table.immutable ∧ group.has_clamps then
      .error (.internalError
        ("entities of type " ++ group.entity_type ++
          " can not be updated since they are immutable"))
    else
      let clamp_stmts := group.clamps.map fun bi =>
        SqlStatement.clampRange table.name bi.2 bi.1
      let insert_stmts := (chunksOf chunk_size group.rows).map fun chunk =>
        SqlStatement.insertChunk table.name chunk
      let count := (insert_stmts.map exec_insert).sum
      .ok (clamp_stmts ++ insert_stmts, count)

/-- `Layout::delete`: nothing to do when the batch has no close operations;
fail on immutable tables; otherwise clamp the given ids at the given
blocks in sub-batches of `DELETE_OPERATION_CHUNK_SIZE` ids. -/
def Layout.delete (l : Layout) (group : RowGroup)
    (exec_clamp : SqlStatement → Nat) : Except StoreError (List SqlStatement × Nat) :=
  if !group.has_clamps then
    .ok ([], 0)
  else
    match l.table_for_entity group.entity_type with
    | .error e => .error e
    | .ok table =>
      if table.immutable then
        .error (.internalError
          ("entities of type " ++ table.object ++
            " can not be deleted since they are immutable"))
      else
        let stmts := (group.clamps.map fun bi =>
          (chunksOf DELETE_OPERATION_CHUNK_SIZE bi.2).map fun chunk =>
            SqlStatement.clampRange table.name chunk bi.1).flatten
        .ok (stmts, (stmts.map exec_clamp).sum)

/-- `Layout::revert_block`: for every table, the ids returned by
`RevertRemoveQuery` (versions whose whole range lies at or after the
reverted block) and by `RevertClampQuery` (versions re-opened at the
block), the latter taken to be empty for immutable tables, adjust the
entity count by `|unclamped - removed| - |removed - unclamped|`.  The two
query results are oracles mapping each table to the id set the database
returns. -/
def Layout.revert_block (l : Layout) (removedQ unclampedQ : Table → Finset String) : Int :=
  l.tables.foldl
    (fun count table =>
      let removed := removedQ table
      let unclamped := if table.immutable then (∅ : Finset String) else unclampedQ table
      let deleted : Int := (removed \ unclamped).card
      let inserted : Int := (unclamped \ removed).card
      count + (inserted - deleted))
    0

/-- Modelled from the spec: the deserialized result rows of the
`FindManyQuery` (`relational_queries.rs`, outside the excerpt).  Each row
yields an entity whose key is built from the entity type, the entity id and
the causality region read off the entity. -/
structure FMRow where
  entity_type : String
  id : String
  causality_region : Int
deriving DecidableEq, Repr

/-- The `EntityKey` built for a result row of `find_many`. -/
def FMRow.key (r : FMRow) : String × String × Int :=
  (r.entity_type, r.id, r.causality_region)

/-- The deduplicating loop of `Layout::find_many`: insert each result row
into the entity map under its key, failing with the data-integrity internal
error when the key is already present. -/
def buildEntities (block : Int) :
    List FMRow → List ((String × String × Int) × FMRow) →
    Except StoreError (List ((String × String × Int) × FMRow))
  | [], entities => .ok entities
  | data :: rest, entities =>
    let key := data.key
    if entities.any (fun p => p.1 = key) then
      .error (.internalError
        ("duplicate entity " ++ data.entity_type ++ "[" ++ data.id ++
          "] in result set, block = " ++ toString block))
    else
      buildEntities block rest (entities ++ [(key, data)])

/-- The table-collection loop at the start of `find_many`: push the table
of every requested (entity type, causality region) key, failing on the
first unknown entity type. -/
def collectTables (l : Layout) :
    List ((String × Int) × List String) → Except StoreError (List (Table × Int))
  | [] => .ok []
  | k :: rest =>
    match l.table_for_entity k.1.1 with
    | .error e => .error e
    | .ok t =>
      match collectTables l rest with
      | .error e => .error e
      | .ok ts => .ok ((t, k.1.2) :: ts)

/-- `Layout::find_many`: batched lookup.  The keys requested
(`ids_for_type`) determine the tables consulted (an unknown entity type
fails); the rows the union query returns are an oracle; the result map is
built by `buildEntities`. -/
def Layout.find_many (l : Layout) (ids_for_type : List ((String × Int) × List String))
    (query_rows : List FMRow) (block : Int) :
    Except StoreError (List ((String × String × Int) × FMRow)) :=
  if ids_for_type.isEmpty then
    .ok []
  else
    match collectTables l ids_for_type with
    | .error e => .error e
    | .ok _tables => buildEntities block query_rows []

/-- The error kinds of the backing database driver that the error
translation in `Layout::query` distinguishes. -/
inductive DatabaseErrorKind where
  | unknown
  | uniqueViolation
  | serializationFailure
deriving DecidableEq, Repr

/-- Modelled from the spec: the database driver error
(`diesel::result::Error`, external) as `Layout::query` matches on it: a
database error with a kind and a message, or any other failure. -/
inductive DieselError where
  | databaseError (kind : DatabaseErrorKind) (message : String)
  | notFound
  | other (description : String)
deriving DecidableEq, Repr

/-- Modelled from the spec: the `Display` rendering of the driver error
(external); the embedded claims depend only on the rendered error being a
string that the query text is appended to. -/
def DieselError.render : DieselError → String
  | .databaseError _ message => message
  | .notFound => "NotFound"
  | .other description => description

/-- Modelled from the spec: Rust `str::starts_with` as the error
translation uses it, as a byte-wise prefix test on the character data. -/
def strStartsWith (s pre : String) : Bool :=
  pre.data.isPrefixOf s.data

/-- The query errors `Layout::query` returns on failure. -/
inductive QueryExecutionError where
  | fulltextQueryInvalidSyntax (msg : String)
  | resolveEntitiesError (msg : String)
deriving DecidableEq, Repr

/-- The error translation of `Layout::query` (its `map_err` closure): an
unknown-kind database error whose message starts with a tsquery syntax
error becomes `FulltextQueryInvalidSyntax` carrying the message; every
other error becomes `ResolveEntitiesError` carrying the rendered error and
the full statement text. -/
def translate_query_error (e : DieselError) (query_text : String) : QueryExecutionError :=
  match e with
  | .databaseError .unknown info =>
    if strStartsWith info "syntax error in tsquery" then
      .fulltextQueryInvalidSyntax info
    else
      .resolveEntitiesError (e.render ++ ", query = " ++ query_text)
  | _ => .resolveEntitiesError (e.render ++ ", query = " ++ query_text)

/-- The 20 kB bound (`MAXLEN`) that `log_query_timing` applies to the
statement text before logging it. -/
def MAXLEN : Nat := 20480

/-- The statement text as `log_query_timing` logs it: truncated to
`MAXLEN` with an ellipsis when it is longer. -/
def log_query_text (text : String) : String :=
  if text.length > MAXLEN then
    (text.take MAXLEN).push ' ' ++ "..."
  else
    text

/-- Modelled from the spec: one row of a bound-side result set of
`find_range` (`EntityDataExt` in `relational_queries.rs`, outside the
excerpt), carrying the fields the merge reads: entity type name, entity
id, the serialized entity data, the boundary block and the version id. -/
structure EntityDataExt where
  entity : String
  id : String
  data : String
  block_number : Int
  vid : Int
deriving DecidableEq, Repr

/-- The change kinds emitted by the range-diff extractor
(`EntityOperationKind`). -/
inductive EntityOperationKind where
  | create
  | modify
  | delete
deriving DecidableEq, Repr

/-- One emitted change (`EntitySourceOperation`): the kind, the entity type,
the (deserialized) entity payload and the version id. -/
structure EntitySourceOperation where
  entity_op : EntityOperationKind
  entity_type : String
  entity : String
  vid : Int
deriving DecidableEq, Repr

/-- `compare_entity_data_ext`: order the bound-side rows by
(block number, entity type, entity id). -/
def compare_entity_data_ext (a b : EntityDataExt) : Ordering :=
  (compare a.block_number b.block_number).then
    ((compare a.entity b.entity).then (compare a.id b.id))

/-- The `transform` closure of `find_range`: turn a bound-side row into an
emitted operation together with its block. -/
def transform_row (ede : EntityDataExt) (entity_op : EntityOperationKind) :
    EntitySourceOperation × Int :=
  ({ entity_op := entity_op, entity_type := ede.entity, entity := ede.data, vid := ede.vid },
    ede.block_number)

/-- Insertion into the `BTreeMap` of per-block event lists, modelled as a
key-sorted association list: push onto an existing block bucket, or insert
a fresh bucket at its sorted position. -/
def insert_op (m : List (Int × List EntitySourceOperation)) (block : Int)
    (op : EntitySourceOperation) : List (Int × List EntitySourceOperation) :=
  match m with
  | [] => [(block, [op])]
  | (b, ops) :: rest =>
    if block = b then (b, ops ++ [op]) :: rest
    else if block < b then (block, [op]) :: (b, ops) :: rest
    else (b, ops) :: insert_op rest block op

/-- The weight of a peeked iterator element—`1` when an element is held. -/
def optWeight : Option α → Nat
  | none => 0
  | some _ => 1

/-- Re-attach a peeked iterator head to the rest of the iterator. -/
def optCons : Option α → List α → List α
  | none, l => l
  | some a, l => a :: l

/-- The merge loop of `Layout::find_range`, with the loop state spelled out
as in the source: the current heads (`lower_now`, `upper_now`), the
remaining iterators, and the per-block map accumulated so far. -/
def find_range_loop (lower_now upper_now : Option EntityDataExt)
    (lower_iter upper_iter : List EntityDataExt)
    (entities : List (Int × List EntitySourceOperation)) :
    List (Int × List EntitySourceOperation) :=
  match lower_now, upper_now with
  | none, none => entities
  | some lower, none =>
    find_range_loop lower_iter.head? none lower_iter.tail upper_iter
      (insert_op entities (transform_row lower .create).2 (transform_row lower .create).1)
  | none, some upper =>
    find_range_loop none upper_iter.head? lower_iter upper_iter.tail
      (insert_op entities (transform_row upper .delete).2 (transform_row upper .delete).1)
  | some lower, some upper =>
    match compare_entity_data_ext lower upper with
    | .gt =>
      find_range_loop (some lower) upper_iter.head? lower_iter upper_iter.tail
        (insert_op entities (transform_row upper .delete).2 (transform_row upper .delete).1)
    | .lt =>
      find_range_loop lower_iter.head? (some upper) lower_iter.tail upper_iter
        (insert_op entities (transform_row lower .create).2 (transform_row lower .create).1)
    | .eq =>
      find_range_loop lower_iter.head? upper_iter.head? lower_iter.tail upper_iter.tail
        (insert_op entities (transform_row lower .modify).2 (transform_row lower .modify).1)
termination_by
  optWeight lower_now + lower_iter.length + (optWeight upper_now + upper_iter.length)
decreasing_by
  all_goals cases lower_iter <;> cases upper_iter <;> simp [optWeight] <;> omega

/-- The order on emitted operations used to sort each block bucket:
ascending version id. -/
def vidLe (a b : EntitySourceOperation) : Prop :=
  a.vid ≤ b.vid

instance : DecidableRel vidLe := fun a b => inferInstanceAs (Decidable (a.vid ≤ b.vid))

instance : IsTotal EntitySourceOperation vidLe :=
  ⟨fun a b => Int.le_total a.vid b.vid⟩

instance : IsTrans EntitySourceOperation vidLe :=
  ⟨fun _ _ _ h1 h2 => le_trans h1 h2⟩

/-- `Layout::find_range` restricted to its pure part: given the two sorted
bound-side result sets (oracles for the two `FindRangeQuery` executions),
run the merge loop, then sort each block bucket by version id. -/
def Layout.find_range (lower_vec upper_vec : List EntityDataExt) :
    List (Int × List EntitySourceOperation) :=
  let entities := find_range_loop lower_vec.head? upper_vec.head?
    lower_vec.tail upper_vec.tail []
  entities.map fun bo => (bo.1, bo.2.insertionSort vidLe)

/-- The sorted merge as the spec states it: compare the heads, emit a
Create and advance the lower stream when the lower head is strictly
earlier, emit a Delete and advance the upper stream when the upper head is
strictly earlier, emit a Modify and advance both on an exact tie, and
drain the remaining stream as Creates or Deletes once the other is
exhausted. -/
def merge_streams : List EntityDataExt → List EntityDataExt →
    List (EntitySourceOperation × Int)
  | [], [] => []
  | lower :: ls, [] => transform_row lower .create :: merge_streams ls []
  | [], upper :: us => transform_row upper .delete :: merge_streams [] us
  | lower :: ls, upper :: us =>
    match compare_entity_data_ext lower upper with
    | .lt => transform_row lower .create :: merge_streams ls (upper :: us)
    | .gt => transform_row upper .delete :: merge_streams (lower :: ls) us
    | .eq => transform_row lower .modify :: merge_streams ls us
termination_by a b => a.length + b.length

/-- The range-diff extractor as the spec describes it: the sorted merge of
the two streams, grouped by block, with each block bucket sorted by
ascending version id. -/
def find_range_spec (lower_vec upper_vec : List EntityDataExt) :
    List (Int × List EntitySourceOperation) :=
  ((merge_streams lower_vec upper_vec).foldl (fun m p => insert_op m p.2 p.1) []).map
    fun bo => (bo.1, bo.2.insertionSort vidLe)

/-- `Layout::is_cacheable`: always true (there are no layout migrations in
the code right now). -/
def Layout.is_cacheable (_l : Layout) : Bool :=
  true

/-- One entry of the layout cache (`CacheEntry`): the cached layout and the
instant it expires, with instants modelled as naturals. -/
structure CacheEntry where
  value : Layout
  expires : Nat
deriving DecidableEq

/-- The `LayoutCache` state: the entry map (keyed by deployment hash), the
TTL, and the time of the last sweep.  The refresh lock is modelled by the
`lock_available` argument of `get` (the outcome of `try_lock`), and the
`ENV_VARS.store.schema_cache_ttl` sweep interval is passed explicitly. -/
structure LayoutCache where
  entries : List (String × CacheEntry)
  ttl : Nat
  last_sweep : Nat
deriving DecidableEq

/-- `HashMap::insert` on the entry map: replace the entry under the key or
add it. -/
def assocInsert (entries : List (String × CacheEntry)) (k : String) (v : CacheEntry) :
    List (String × CacheEntry) :=
  if entries.any (fun p => p.1 = k) then
    entries.map fun p => if p.1 = k then (k, v) else p
  else
    entries ++ [(k, v)]

/-- `HashMap::get` on the entry map. -/
def assocLookup (entries : List (String × CacheEntry)) (k : String) : Option CacheEntry :=
  (entries.find? fun p => p.1 = k).map Prod.snd

/-- `LayoutCache::cache`: store the layout under its own deployment hash
with expiry `now + ttl`, but only when the TTL is positive and the layout
is cacheable. -/
def LayoutCache.cacheLayout (self : LayoutCache) (now : Nat) (layout : Layout) : LayoutCache :=
  if 0 < self.ttl ∧ layout.is_cacheable then
    { self with
      entries := assocInsert self.entries layout.site.deployment
        { value := layout, expires := now + self.ttl } }
  else
    self

/-- `LayoutCache::refresh`: run the layout refresh (its outcome is the
oracle `refresh_result`); on failure log, re-cache the stale value with a
bumped expiry and return it; on success cache and return the fresh
value. -/
def LayoutCache.refreshEntry (self : LayoutCache) (now : Nat) (value : Layout)
    (refresh_result : Except StoreError Layout) : Layout × LayoutCache :=
  match refresh_result with
  | .error _ => (value, self.cacheLayout now value)
  | .ok layout => (layout, self.cacheLayout now layout)

/-- `LayoutCache::sweep`: at most once per sweep interval, drop the entries
whose expiry lies more than one TTL in the past. -/
def LayoutCache.sweep (self : LayoutCache) (now : Nat) (sweep_interval : Nat) : LayoutCache :=
  if now - self.last_sweep < sweep_interval then
    self
  else
    { self with
      entries := self.entries.filter fun p => now < p.2.expires + self.ttl,
      last_sweep := now }

/-- `LayoutCache::get`: return a fresh cached entry as is; for an expired
entry, return the stale value when the refresh lock is unavailable and
otherwise run the refresh; on a miss, load the layout (the oracle
`load_result`) and cache it.  Always sweeps before returning. -/
def LayoutCache.get (self : LayoutCache) (now : Nat) (sweep_interval : Nat) (site : Site)
    (lock_available : Bool) (refresh_result : Except StoreError Layout)
    (load_result : Except StoreError Layout) :
    Except StoreError (Layout × LayoutCache) :=
  match assocLookup self.entries site.deployment with
  | some entry =>
    if now ≤ entry.expires then
      .ok (entry.value, self.sweep now sweep_interval)
    else if !lock_available then
      .ok (entry.value, self.sweep now sweep_interval)
    else
      let r := self.refreshEntry now entry.value refresh_result
      .ok (r.1, r.2.sweep now sweep_interval)
  | none =>
    match load_result with
    | .error e => .error e
    | .ok layout =>
      let st := self.cacheLayout now layout
      .ok (layout, st.sweep now sweep_interval)

/-! Concrete objects used by witnesses and counterexamples. -/

/-- A concrete site. -/
def demoSite : Site :=
  { deployment := "Qm123", nsp := "sgd42", shard := "primary" }

/-- A concrete non-nullable id column. -/
def demoIdColumn : Column :=
  { name := "id", field := "id", field_type := .nonNull (.named "String"),
    column_type := .string, is_reference := false, use_prefix_comparison := false }

/-- A concrete immutable table. -/
def demoImmutableTable : Table :=
  { object := "Imm", nsp := "sgd42", name := "imm",
    qualified_name := SqlName.qualified_name "sgd42" "imm",
    columns := [demoIdColumn], is_account_like := false, position := 0,
    immutable := true, has_causality_region := false }

/-- A concrete layout holding only the immutable table. -/
def demoLayout : Layout :=
  { site := demoSite, tables := [demoImmutableTable], history_blocks := 100 }

/-- A row group against the immutable table that contains no close (clamp)
operations, only an insert. -/
def demoGroupNoClamps : RowGroup :=
  { entity_type := "Imm", clamps := [], rows := [{ id := "a", block := 5 }] }

/-- A row group against the immutable table that does contain a close
(clamp) operation. -/
def demoGroupWithClamps : RowGroup :=
  { entity_type := "Imm", clamps := [(7, ["a"])], rows := [{ id := "a", block := 7 }] }

/-- A non-nullable enum column over the given value set, named `color`. -/
def demoEnumColumn (values : Finset String) : Column :=
  { name := "color", field := "color", field_type := .nonNull (.named "Color"),
    column_type := .enum { name := SqlName.qualified_name "sgd42" "color", values := values },
    is_reference := false, use_prefix_comparison := false }

/-- A mutable table holding one enum column over the given value set. -/
def demoEnumTable (values : Finset String) : Table :=
  { object := "Thing", nsp := "sgd42", name := "thing",
    qualified_name := SqlName.qualified_name "sgd42" "thing",
    columns := [demoEnumColumn values], is_account_like := false, position := 0,
    immutable := false, has_causality_region := false }

/-- A concrete schema for the witnesses: one entity type `Account` with
byte ids and one enum `Color`. -/
def demoSchema : InputSchema :=
  { entity_id_type := fun n => if n = "Account" then some (.ok .bytes) else none,
    enum_values := fun n => if n = "Color" then some {"RED", "GREEN"} else none }

/-- A concrete catalog over `demoSite`. -/
def demoCatalog : Catalog :=
  { site := demoSite }

/-- A statement text longer than the 20 kB log bound. -/
def demoLongQueryText : String :=
  String.mk (List.replicate 20481 'a')

/-! Theorems. -/

/-- C7: for every pair of enum column types, the target is assignable from
the source (no incompatibility from `is_assignable_from`) iff the source
value set is a subset of the target value set; and on the concrete
scenario, `can_copy_from` reports no incompatibility for a source enum
column over a value subset and exactly one for a source enum column with
an extra value. -/
theorem c7_enum_assignability :
    (∀ target source : EnumType,
      target.is_assignable_from source = none ↔ source.values ⊆ target.values) ∧
    Table.can_copy_from (demoEnumTable {"A", "B", "C"}) (demoEnumTable {"A", "B"}) = [] ∧
    (Table.can_copy_from (demoEnumTable {"A", "B", "C"}) (demoEnumTable {"A", "B", "D"})).length
      = 1 := by
  refine ⟨fun target source => ?_, by decide, by decide⟩
  unfold EnumType.is_assignable_from
  split <;> simp_all

/-- C6: `from_field_type` resolves in order — (a) an entity type of the
schema yields that entity's id storage column type, (b) otherwise a
registered enum yields a namespace-qualified enum column type unless
`is_existing_text_column` degrades it to plain text, (c) otherwise the
name resolves against the fixed scalar set, failing with the unknown-type
condition exactly when the scalar parse fails. -/
theorem c6_from_field_type (schema : InputSchema) (field_type : QType) (catalog : Catalog)
    (is_existing_text_column : Bool) :
    (∀ id_res, schema.entity_id_type field_type.get_base_type = some id_res →
      ColumnType.from_field_type schema field_type catalog is_existing_text_column =
        id_res.map ColumnType.ofIdType) ∧
    (schema.entity_id_type field_type.get_base_type = none →
      ∀ values, schema.enum_values field_type.get_base_type = some values →
        ColumnType.from_field_type schema field_type catalog is_existing_text_column =
          .ok (if is_existing_text_column then .string
            else .enum
              { name := SqlName.qualified_name catalog.site.nsp
                  (toSnakeCase field_type.get_base_type),
                values := values })) ∧
    (schema.entity_id_type field_type.get_base_type = none →
      schema.enum_values field_type.get_base_type = none →
        ColumnType.from_field_type schema field_type catalog is_existing_text_column =
          (ValueType.from_str field_type.get_base_type).map ValueType.toColumnType) := by
  refine ⟨fun id_res h => ?_, fun h values hv => ?_, fun h hv => ?_⟩
  · unfold ColumnType.from_field_type
    dsimp only
    rw [h]
    cases id_res <;> rfl
  · unfold ColumnType.from_field_type
    dsimp only
    rw [h, hv]
    by_cases hc : is_existing_text_column <;> simp [hc]
  · unfold ColumnType.from_field_type
    dsimp only
    rw [h, hv]
    cases hs : ValueType.from_str field_type.get_base_type <;> simp [hs, Except.map]

/-- Witness for C6: the enum branch at a concrete schema, reached with the
hypotheses discharged at `Color`, a registered enum that is not an entity
type. -/
theorem c6_witness :
    ColumnType.from_field_type demoSchema (.named "Color") demoCatalog false =
      .ok (if false then .string
        else .enum
          { name := SqlName.qualified_name demoCatalog.site.nsp (toSnakeCase "Color"),
            values := ({"RED", "GREEN"} : Finset String) }) :=
  (c6_from_field_type demoSchema (.named "Color") demoCatalog false).2.1 (by rfl)
    {"RED", "GREEN"} (by rfl)

/-- `foldl` of repeated addition is the sum of the mapped list. -/
theorem foldl_add_eq_sum (f : α → Int) (l : List α) (c : Int) :
    l.foldl (fun acc t => acc + f t) c = c + (l.map f).sum := by
  induction l generalizing c with
  | nil => simp
  | cons t ts ih => simp [ih, add_assoc]

/-- The both-removed-and-re-opened elements cancel: the difference of the
set-difference cardinalities equals the difference of the cardinalities. -/
theorem card_sdiff_sub_card_sdiff (u r : Finset String) :
    ((u \ r).card : Int) - ((r \ u).card : Int) = (u.card : Int) - (r.card : Int) := by
  have h1 := Finset.card_sdiff_add_card_inter u r
  have h2 := Finset.card_sdiff_add_card_inter r u
  rw [Finset.inter_comm] at h2
  omega

/-- C3: `revert_block` returns, summed over all tables, the count of
versions re-opened but not removed minus the count removed but not
re-opened (with the re-opened set empty for immutable tables), which
equals the summed difference of the two cardinalities — a version both
removed and re-opened contributes zero. -/
theorem c3_revert_block_delta (l : Layout) (removedQ unclampedQ : Table → Finset String) :
    Layout.revert_block l removedQ unclampedQ =
      (l.tables.map fun t =>
        let u := if t.immutable then (∅ : Finset String) else unclampedQ t
        ((u \ removedQ t).card : Int) - ((removedQ t \ u).card : Int)).sum ∧
    Layout.revert_block l removedQ unclampedQ =
      (l.tables.map fun t =>
        let u := if t.immutable then (∅ : Finset String) else unclampedQ t
        ((u.card : Int) - ((removedQ t).card : Int))).sum := by
  have hfold :
      Layout.revert_block l removedQ unclampedQ =
        (l.tables.map fun t =>
          let u := if t.immutable then (∅ : Finset String) else unclampedQ t
          ((u \ removedQ t).card : Int) - ((removedQ t \ u).card : Int)).sum := by
    unfold Layout.revert_block
    rw [show (0 : Int) = 0 + 0 from rfl]
    exact foldl_add_eq_sum _ l.tables 0 |>.trans (by ring_nf)
  refine ⟨hfold, hfold.trans ?_⟩
  congr 1
  apply List.map_congr_left
  intro t _
  exact card_sdiff_sub_card_sdiff _ _

/-- C4 (amended): an unknown-kind database error whose message starts with
the tsquery syntax error prefix is translated to the dedicated invalid
full-text syntax condition carrying the message verbatim; every other
database error becomes the generic resolution-failure condition carrying
the offending statement text in full; the 20 kB truncation applies only to
the logged statement text. -/
theorem c4_error_translation (e : DieselError) (info query_text text : String) :
    (e = .databaseError .unknown info → strStartsWith info "syntax error in tsquery" = true →
      translate_query_error e query_text = .fulltextQueryInvalidSyntax info) ∧
    ((∀ m, e = .databaseError .unknown m → strStartsWith m "syntax error in tsquery" = false) →
      translate_query_error e query_text =
        .resolveEntitiesError (e.render ++ ", query = " ++ query_text)) ∧
    (MAXLEN < text.length → log_query_text text = (text.take MAXLEN).push ' ' ++ "...") ∧
    (text.length ≤ MAXLEN → log_query_text text = text) := by
  refine ⟨fun he hs => ?_, fun hother => ?_, fun hlong => ?_, fun hshort => ?_⟩
  · subst he
    simp [translate_query_error, hs]
  · cases e with
    | databaseError kind message =>
      cases kind with
      | unknown => simp [translate_query_error, hother message rfl]
      | uniqueViolation => rfl
      | serializationFailure => rfl
    | notFound => rfl
    | other d => rfl
  · simp [log_query_text, Nat.lt_iff_add_one_le.mp hlong, hlong]
  · simp [log_query_text, Nat.not_lt.mpr hshort]

/-- Witness for C4: the tsquery branch and the generic branch at concrete
errors. -/
theorem c4_witness :
    translate_query_error (.databaseError .unknown "syntax error in tsquery: unbalanced")
        "select 1" =
      .fulltextQueryInvalidSyntax "syntax error in tsquery: unbalanced" ∧
    translate_query_error .notFound "select 1" =
      .resolveEntitiesError ("NotFound" ++ ", query = " ++ "select 1") :=
  ⟨(c4_error_translation (.databaseError .unknown "syntax error in tsquery: unbalanced")
      "syntax error in tsquery: unbalanced" "select 1" "t").1 rfl (by decide),
    (c4_error_translation .notFound "x" "select 1" "t").2.1 (fun m hm => by cases hm)⟩

/-- Counterexample for C4 as stated: a generic database error carries the
offending statement text untruncated — here the carried text is longer
than the 20 kB bound the claim asserts. -/
theorem c4_counterexample :
    translate_query_error (.databaseError .unknown "server closed the connection")
        demoLongQueryText =
      .resolveEntitiesError ("server closed the connection" ++ ", query = " ++
        demoLongQueryText) ∧
    MAXLEN < ("server closed the connection" ++ ", query = " ++ demoLongQueryText).length := by
  constructor
  · have hs : strStartsWith "server closed the connection" "syntax error in tsquery" = false := by
      decide
    simp [translate_query_error, hs, DieselError.render]
  · have h1 : demoLongQueryText.length = 20481 := by
      show (List.replicate 20481 'a').length = 20481
      exact List.length_replicate 20481 'a'
    simp [String.length_append, h1, MAXLEN]

/-- C1 (amended): on an immutable table, `update` and `delete` fail with
the immutable-violation internal error — executing no clamp and no insert
statement — exactly when the row group contains close (clamp) operations;
a group without close operations does not fail: `update` proceeds to its
inserts and `delete` returns 0 without touching the database. -/
theorem c1_immutable_guard (l : Layout) (group : RowGroup) (chunk_size : Nat)
    (exec_insert exec_clamp : SqlStatement → Nat) (table : Table)
    (htable : l.table_for_entity group.entity_type = .ok table)
    (himm : table.immutable = true) :
    (group.has_clamps = true →
      (∃ m, l.update group chunk_size exec_insert = .error (.internalError m)) ∧
      (∃ m, l.delete group exec_clamp = .error (.internalError m))) ∧
    (group.has_clamps = false →
      (l.update group chunk_size exec_insert).isOk = true ∧
      l.delete group exec_clamp = .ok ([], 0)) := by
  constructor
  · intro hc
    constructor
    · have hupd : l.update group chunk_size exec_insert =
          .error (.internalError ("entities of type " ++ group.entity_type ++
            " can not be updated since they are immutable")) := by
        unfold Layout.update
        rw [htable]
        simp [himm, hc]
      exact ⟨_, hupd⟩
    · have hdel : l.delete group exec_clamp =
          .error (.internalError ("entities of type " ++ table.object ++
            " can not be deleted since they are immutable")) := by
        unfold Layout.delete
        rw [hc]
        simp only [Bool.not_true, Bool.false_eq_true, if_false]
        rw [htable]
        simp [himm]
      exact ⟨_, hdel⟩
  · intro hc
    constructor
    · unfold Layout.update
      rw [htable]
      simp [himm, hc, Except.isOk, Except.toBool]
    · unfold Layout.delete
      rw [hc]
      simp

/-- Witness for C1 (amended): the failing branch at a concrete immutable
table and a group with a clamp. -/
theorem c1_witness :
    (∃ m, demoLayout.update demoGroupWithClamps 3 (fun _ => 1) =
      .error (.internalError m)) ∧
    (∃ m, demoLayout.delete demoGroupWithClamps (fun _ => 1) =
      .error (.internalError m)) :=
  (c1_immutable_guard demoLayout demoGroupWithClamps 3 (fun _ => 1) (fun _ => 1)
    demoImmutableTable rfl rfl).1 rfl

/-- Counterexample for C1 as stated: a row group against an immutable
table that contains no close (clamp) operations does not make `update` or
`delete` fail — `update` succeeds and `delete` returns 0 — so the claim's
"regardless of whether the group contains close operations" is false. -/
theorem c1_counterexample :
    demoImmutableTable.immutable = true ∧
    demoGroupNoClamps.has_clamps = false ∧
    (demoLayout.update demoGroupNoClamps 3 (fun _ => 1)).isOk = true ∧
    demoLayout.delete demoGroupNoClamps (fun _ => 1) = .ok ([], 0) := by
  refine ⟨rfl, rfl, ?_, ?_⟩
  · rfl
  · rfl

/-- The deduplicating loop succeeds iff the incoming rows have pairwise
distinct keys, none of which is already in the accumulated map. -/
theorem buildEntities_isOk_iff (block : Int) (rows : List FMRow) :
    ∀ entities : List ((String × String × Int) × FMRow),
      (buildEntities block rows entities).isOk = true ↔
        ((rows.map FMRow.key).Nodup ∧ ∀ r ∈ rows, r.key ∉ entities.map Prod.fst) := by
  induction rows with
  | nil => intro entities; simp [buildEntities, Except.isOk, Except.toBool]
  | cons data rest ih =>
    intro entities
    have hany : (entities.any fun p => p.1 = data.key) = true ↔
        data.key ∈ entities.map Prod.fst := by
      simp [List.any_eq_true, List.mem_map]
    by_cases hmem : data.key ∈ entities.map Prod.fst
    · have hane : (entities.any fun p => p.1 = data.key) = true := hany.mpr hmem
      simp only [buildEntities, hane, if_true]
      constructor
      · intro h
        exact absurd h (by simp [Except.isOk, Except.toBool])
      · rintro ⟨-, hall⟩
        exact absurd hmem (hall data (List.mem_cons_self data rest))
    · have hane : (entities.any fun p => p.1 = data.key) = false := by
        rw [← Bool.not_eq_true, hany]; exact hmem
      simp only [buildEntities, hane, Bool.false_eq_true, if_false]
      rw [ih]
      constructor
      · rintro ⟨hnd, hall⟩
        have hdata_not_rest : data.key ∉ rest.map FMRow.key := by
          intro hmem2
          rcases List.mem_map.mp hmem2 with ⟨r, hr, hrk⟩
          have h1 := hall r hr
          rw [List.map_append] at h1
          exact h1 (List.mem_append.mpr (Or.inr (by simp [hrk])))
        rw [List.map_cons, List.nodup_cons]
        refine ⟨⟨hdata_not_rest, hnd⟩, ?_⟩
        intro r hr
        rcases List.mem_cons.mp hr with hr1 | hr2
        · subst hr1; exact hmem
        · have h1 := hall r hr2
          rw [List.map_append] at h1
          intro hk
          exact h1 (List.mem_append.mpr (Or.inl hk))
      · rintro ⟨hndc, hall⟩
        rw [List.map_cons, List.nodup_cons] at hndc
        obtain ⟨hdk, hnd⟩ := hndc
        refine ⟨hnd, ?_⟩
        intro r hr
        rw [List.map_append]
        intro hk
        rcases List.mem_append.mp hk with hk1 | hk2
        · exact (hall r (List.mem_cons_of_mem data hr)) hk1
        · have hkey : r.key = data.key := by simpa using hk2
          exact hdk (hkey ▸ List.mem_map_of_mem FMRow.key hr)

/-- The value the deduplicating loop returns on success: the accumulated
map followed by one entry per row, keyed by the row's key. -/
theorem buildEntities_ok_eq (block : Int) (rows : List FMRow) :
    ∀ entities m, buildEntities block rows entities = .ok m →
      m = entities ++ rows.map fun r => (r.key, r) := by
  induction rows with
  | nil =>
    intro entities m h
    simp only [buildEntities] at h
    cases h
    simp
  | cons data rest ih =>
    intro entities m h
    simp only [buildEntities] at h
    by_cases hc : (entities.any fun p => p.1 = data.key) = true
    · rw [hc] at h; simp at h
    · rw [Bool.not_eq_true] at hc
      rw [hc] at h
      simp only [Bool.false_eq_true, if_false] at h
      have := ih (entities ++ [(data.key, data)]) m h
      simpa [List.append_assoc] using this

/-- C5 (amended): when the batched lookup reaches its result loop (the key
set is nonempty and every requested entity type is known), `find_many`
fails — with the data-integrity internal error — iff the result set
contains two rows with the same (entity type, id, causality region) key;
otherwise it returns the map sending each row's key to the row. -/
theorem c5_find_many (l : Layout) (ids_for_type : List ((String × Int) × List String))
    (query_rows : List FMRow) (block : Int)
    (hne : ids_for_type.isEmpty = false)
    (hok : ∃ ts, collectTables l ids_for_type = .ok ts) :
    ((l.find_many ids_for_type query_rows block).isOk = true ↔
      (query_rows.map FMRow.key).Nodup) ∧
    ∀ m, l.find_many ids_for_type query_rows block = .ok m →
      m = query_rows.map fun r => (r.key, r) := by
  obtain ⟨ts, hts⟩ := hok
  unfold Layout.find_many
  rw [hne]
  simp only [Bool.false_eq_true, if_false]
  rw [hts]
  constructor
  · rw [buildEntities_isOk_iff]
    simp
  · intro m h
    simpa using buildEntities_ok_eq block query_rows [] m h

/-- A result row of `find_many` in causality region 0. -/
def demoFMRow1 : FMRow :=
  { entity_type := "Imm", id := "a", causality_region := 0 }

/-- A result row with the same entity type and id in causality region 1. -/
def demoFMRow2 : FMRow :=
  { entity_type := "Imm", id := "a", causality_region := 1 }

/-- Witness for C5 (amended): the hypotheses discharged at a concrete
layout and key set. -/
theorem c5_witness :
    ((demoLayout.find_many [(("Imm", 0), ["a"])] [demoFMRow1] 5).isOk = true ↔
      (([demoFMRow1]).map FMRow.key).Nodup) ∧
    ∀ m, demoLayout.find_many [(("Imm", 0), ["a"])] [demoFMRow1] 5 = .ok m →
      m = [demoFMRow1].map fun r => (r.key, r) :=
  c5_find_many demoLayout [(("Imm", 0), ["a"])] [demoFMRow1] 5 rfl ⟨_, rfl⟩

/-- Counterexample for C5 as stated: two result rows with the same
(entity type, id) combination but different causality regions do not make
`find_many` fail — the duplicate check keys on (entity type, id,
causality region). -/
theorem c5_counterexample :
    demoFMRow1.entity_type = demoFMRow2.entity_type ∧
    demoFMRow1.id = demoFMRow2.id ∧
    (demoLayout.find_many [(("Imm", 0), ["a"])] [demoFMRow1, demoFMRow2] 5).isOk = true := by
  exact ⟨rfl, rfl, rfl⟩

/-- Dropping the elements on which the function is `none` anyway does not
change a `filterMap`. -/
theorem filterMap_filter_of_none {α β : Type} (q : α → Bool) (f : α → Option β) (l : List α)
    (h : ∀ a, q a = false → f a = none) :
    (l.filter q).filterMap f = l.filterMap f := by
  induction l with
  | nil => rfl
  | cons a as ih =>
    by_cases hq : q a
    · simp [List.filter_cons, hq, List.filterMap_cons, ih]
    · rw [Bool.not_eq_true] at hq
      simp [List.filter_cons, hq, List.filterMap_cons, h a hq, ih]

/-- C10: `Layout::can_copy_from` checks only tables whose name exists in
both layouts — restricting the destination to its matched tables changes
nothing, so an unmatched destination table contributes no incompatibility
even with non-nullable columns (concrete third conjunct) — while inside a
matched pair a non-nullable destination column with no source counterpart
is reported. -/
theorem c10_copy_checks_matched_tables_only :
    (∀ dst base : Layout,
      Layout.can_copy_from dst base =
        Layout.can_copy_from
          { dst with tables := dst.tables.filter fun t => (base.table t.name).isSome } base) ∧
    (∀ (t src : Table) (c : Column), c ∈ t.columns → src.column c.name = none →
      c.is_nullable = false →
        ("The attribute " ++ t.object ++ "." ++ c.field ++
          " is non-nullable, but there is no such attribute in the source") ∈
          t.can_copy_from src) ∧
    Layout.can_copy_from
        { site := demoSite, tables := [demoEnumTable {"A"}], history_blocks := 0 }
        { site := demoSite, tables := [], history_blocks := 0 } = [] := by
  refine ⟨fun dst base => ?_, fun t src c hc hcol hnull => ?_, by rfl⟩
  · unfold Layout.can_copy_from
    simp only
    rw [filterMap_filter_of_none (fun t => (base.table t.name).isSome)
      (fun dst => (base.table dst.name).map fun src => (dst, src)) dst.tables]
    intro a ha
    have hnone : base.table a.name = none := by
      cases hcase : base.table a.name with
      | none => rfl
      | some t => rw [hcase] at ha; cases ha
    rw [hnone]
    rfl
  · unfold Table.can_copy_from
    apply List.mem_filterMap.mpr
    refine ⟨c, hc, ?_⟩
    rw [hcol, hnull]
    rfl

/-- Witness for C10: the non-nullable unmatched-column incompatibility at
a concrete table pair. -/
theorem c10_witness :
    ("The attribute " ++ (demoEnumTable {"A"}).object ++ "." ++ (demoEnumColumn {"A"}).field ++
      " is non-nullable, but there is no such attribute in the source") ∈
      (demoEnumTable {"A"}).can_copy_from (demoImmutableTable) :=
  c10_copy_checks_matched_tables_only.2.1 (demoEnumTable {"A"}) demoImmutableTable
    (demoEnumColumn {"A"}) (by simp [demoEnumTable]) rfl rfl

/-- Finding the key in the map after an in-place replacement of its entry
yields the replacement. -/
theorem find_map_replace (k : String) (v : CacheEntry) :
    ∀ entries : List (String × CacheEntry), (entries.any fun p => p.1 = k) = true →
      (entries.map fun p => if p.1 = k then (k, v) else p).find? (fun p => p.1 = k) =
        some (k, v) := by
  intro entries
  induction entries with
  | nil => intro h; simp at h
  | cons p ps ih =>
    intro h
    by_cases hp : p.1 = k
    · simp [List.find?_cons, hp]
    · have hps : (ps.any fun q => q.1 = k) = true := by
        simpa [List.any_cons, hp] using h
      simpa [List.find?_cons, hp] using ih hps

/-- Finding the key in the map after appending a fresh entry for it yields
that entry. -/
theorem find_append_fresh (k : String) (v : CacheEntry) :
    ∀ entries : List (String × CacheEntry), (entries.any fun p => p.1 = k) = false →
      (entries ++ [(k, v)]).find? (fun p => p.1 = k) = some (k, v) := by
  intro entries
  induction entries with
  | nil => simp [List.find?_cons]
  | cons p ps ih =>
    intro h
    have hp : (p.1 = k) = False := by
      by_contra hcon
      simp [List.any_cons] at h
      simp [h.1] at hcon
    have hps : (ps.any fun q => q.1 = k) = false := by
      simp [List.any_cons] at h
      simpa using h.2
    simpa [List.find?_cons, hp] using ih hps

/-- Looking up the key just inserted into the entry map yields the
inserted value. -/
theorem assocLookup_insert_self (k : String) (v : CacheEntry) :
    ∀ entries, assocLookup (assocInsert entries k v) k = some v := by
  intro entries
  unfold assocInsert assocLookup
  by_cases hany : (entries.any fun p => p.1 = k) = true
  · rw [if_pos hany, find_map_replace k v entries hany]
    rfl
  · rw [Bool.not_eq_true] at hany
    rw [if_neg (by simp [hany]), find_append_fresh k v entries hany]
    rfl

/-- An entry found in the map is still found after a filter that keeps
it. -/
theorem assocLookup_filter (k : String) (v : CacheEntry) (q : String × CacheEntry → Bool) :
    ∀ entries, assocLookup entries k = some v → q (k, v) = true →
      assocLookup (entries.filter q) k = some v := by
  intro entries
  induction entries with
  | nil => intro h; simp [assocLookup] at h
  | cons p ps ih =>
    intro h hq
    by_cases hp : p.1 = k
    · have hpv : p.2 = v := by
        simpa [assocLookup, List.find?_cons, hp] using h
      have hpkv : p = (k, v) := by
        cases p; simp_all
      subst hpkv
      simp [List.filter_cons, hq, assocLookup, List.find?_cons]
    · have h2 : assocLookup ps k = some v := by
        simpa [assocLookup, List.find?_cons, hp] using h
      have hrec := ih h2 hq
      by_cases hqp : q p = true
      · simpa [List.filter_cons, hqp, assocLookup, List.find?_cons, hp] using hrec
      · simpa [List.filter_cons, hqp, assocLookup] using hrec

/-- C8: when `get` finds an expired entry, acquires the refresh lock, and
the refresh fails, it still returns the previously cached layout with no
error, and the entry is re-cached with its expiry bumped to
`now + ttl`. -/
theorem c8_stale_on_refresh_failure (self : LayoutCache) (now sweep_interval : Nat)
    (site : Site) (value : Layout) (expires : Nat) (err : StoreError)
    (load_result : Except StoreError Layout)
    (hentry : assocLookup self.entries site.deployment = some ⟨value, expires⟩)
    (hexp : expires < now)
    (httl : 0 < self.ttl)
    (hdep : value.site.deployment = site.deployment) :
    LayoutCache.get self now sweep_interval site true (.error err) load_result =
      .ok (value, (self.cacheLayout now value).sweep now sweep_interval) ∧
    assocLookup ((self.cacheLayout now value).sweep now sweep_interval).entries
      site.deployment = some ⟨value, now + self.ttl⟩ := by
  constructor
  · unfold LayoutCache.get
    rw [hentry]
    dsimp only
    rw [if_neg (show ¬ now ≤ expires by omega)]
    rfl
  · have hcache : (self.cacheLayout now value).entries =
        assocInsert self.entries site.deployment ⟨value, now + self.ttl⟩ := by
      unfold LayoutCache.cacheLayout
      rw [if_pos ⟨httl, rfl⟩]
      rw [hdep]
    have hlook : assocLookup (self.cacheLayout now value).entries site.deployment =
        some ⟨value, now + self.ttl⟩ := by
      rw [hcache]
      exact assocLookup_insert_self site.deployment ⟨value, now + self.ttl⟩ self.entries
    unfold LayoutCache.sweep
    by_cases hsw : now - (self.cacheLayout now value).last_sweep < sweep_interval
    · rw [if_pos hsw]
      exact hlook
    · rw [if_neg hsw]
      simp only
      apply assocLookup_filter _ _ _ _ hlook
      have httlc : (self.cacheLayout now value).ttl = self.ttl := by
        unfold LayoutCache.cacheLayout
        rw [if_pos ⟨httl, rfl⟩]
      rw [httlc]
      simp only [decide_eq_true_eq]
      omega

/-- A concrete cache with one expired entry, used by the C8 witness. -/
def demoCache : LayoutCache :=
  { entries := [("Qm123", { value := demoLayout, expires := 10 })], ttl := 5, last_sweep := 0 }

/-- Witness for C8: the hypotheses discharged at a concrete expired cache
entry whose refresh fails. -/
theorem c8_witness :
    LayoutCache.get demoCache 20 1000 demoSite true (.error (.internalError "boom"))
        (.ok demoLayout) =
      .ok (demoLayout, (demoCache.cacheLayout 20 demoLayout).sweep 20 1000) ∧
    assocLookup ((demoCache.cacheLayout 20 demoLayout).sweep 20 1000).entries
      demoSite.deployment = some ⟨demoLayout, 20 + demoCache.ttl⟩ :=
  c8_stale_on_refresh_failure demoCache 20 1000 demoSite demoLayout 10
    (.internalError "boom") (.ok demoLayout) rfl (by omega) (by decide) rfl

/-- Folding object-keyed insertions over a base table list replaces, for
every inserted table, the base entry with the same object key. -/
theorem foldl_tablesInsert (F : Table → Table) (hF : ∀ t, (F t).object = t.object) :
    ∀ (c acc : List Table), (∀ t ∈ c, t.object ∈ acc.map Table.object) →
      (c.map Table.object).Nodup →
      c.foldl (fun ts t => tablesInsert ts (F t)) acc =
        acc.map fun u =>
          match c.find? (fun t => t.object = u.object) with
          | some t => F t
          | none => u := by
  intro c
  induction c with
  | nil =>
    intro acc _ _
    simp [List.find?]
  | cons t c' ih =>
    intro acc hmem hnd
    have hmemt : t.object ∈ acc.map Table.object := hmem t (List.mem_cons_self t c')
    have hany : (acc.any fun u => u.object = (F t).object) = true := by
      rw [hF]
      rcases List.mem_map.mp hmemt with ⟨u, hu, hobj⟩
      simp only [List.any_eq_true, decide_eq_true_eq]
      exact ⟨u, hu, hobj⟩
    have hstep : tablesInsert acc (F t) =
        acc.map fun u => if u.object = (F t).object then F t else u := by
      unfold tablesInsert
      rw [if_pos hany]
    rw [List.foldl_cons, hstep]
    have hkeys : (acc.map fun u => if u.object = (F t).object then F t else u).map Table.object
        = acc.map Table.object := by
      rw [List.map_map]
      apply List.map_congr_left
      intro u _
      simp only [Function.comp_apply]
      by_cases h : u.object = (F t).object
      · rw [if_pos h, hF t]
        rw [hF t] at h
        exact h.symm
      · rw [if_neg h]
    rw [List.map_cons, List.nodup_cons] at hnd
    rw [ih (acc.map fun u => if u.object = (F t).object then F t else u)
      (fun t' ht' => by rw [hkeys]; exact hmem t' (List.mem_cons_of_mem t ht')) hnd.2]
    rw [List.map_map]
    apply List.map_congr_left
    intro u hu
    simp only [Function.comp_apply]
    by_cases h : u.object = (F t).object
    · rw [if_pos h]
      have hfind : c'.find? (fun s => s.object = (F t).object) = none := by
        apply List.find?_eq_none.mpr
        intro x hx
        simp only [decide_eq_true_eq]
        rw [hF t]
        intro hxeq
        exact hnd.1 (hxeq ▸ List.mem_map_of_mem Table.object hx)
      have hhead : (fun s : Table => decide (s.object = u.object)) t = true := by
        simp only [decide_eq_true_eq]
        rw [hF t] at h
        exact h.symm
      rw [hfind, List.find?_cons_of_pos c' hhead]
    · rw [if_neg h]
      have hhead : ¬ (fun s : Table => decide (s.object = u.object)) t = true := by
        simp only [decide_eq_true_eq]
        rw [hF t] at h
        intro he
        exact h he.symm
      rw [List.find?_cons_of_neg c' hhead]

/-- In a table list with pairwise distinct object keys, searching the
sublist of tables satisfying `p` for a member's object finds exactly that
member when it satisfies `p`, and nothing otherwise. -/
theorem find_filter_object (p : Table → Bool) :
    ∀ (l : List Table) (u : Table), u ∈ l → (l.map Table.object).Nodup →
      (l.filter p).find? (fun t => t.object = u.object) =
        if p u then some u else none := by
  intro l
  induction l with
  | nil => intro u hu; cases hu
  | cons v l' ih =>
    intro u hu hnd
    rw [List.map_cons, List.nodup_cons] at hnd
    rcases List.mem_cons.mp hu with hv | hl'
    · subst hv
      by_cases hpv : p u
      · simp [List.filter_cons, hpv, List.find?_cons]
      · rw [List.filter_cons, if_neg (by simpa using hpv)]
        rw [if_neg (by simpa using hpv)]
        apply List.find?_eq_none.mpr
        intro x hx
        simp only [decide_eq_true_eq]
        intro hxeq
        exact hnd.1 (hxeq ▸ List.mem_map_of_mem Table.object (List.mem_of_mem_filter hx))
    · have hobj : u.object ≠ v.object := by
        intro he
        exact hnd.1 (he ▸ List.mem_map_of_mem Table.object hl')
      by_cases hpv : p v
      · rw [List.filter_cons, if_pos (by simpa using hpv), List.find?_cons]
        have hhead : (decide (v.object = u.object)) = false := by
          simp only [decide_eq_false_iff_not]
          intro he
          exact hobj he.symm
        simp only [hhead]
        exact ih u hl' hnd.2
      · rw [List.filter_cons, if_neg (by simpa using hpv)]
        exact ih u hl' hnd.2

/-- C9: `refresh` returns the identical layout when no table's
account-like flag, the site, or the history-blocks changed; otherwise it
returns a new layout in which exactly the tables whose flag changed are
replaced by updated table values, every other table value carried over
unchanged (structural sharing), with the new site and history-blocks. -/
theorem c9_refresh_sharing (self : Layout) (account_like : List String)
    (history_blocks : Int) (site : Site)
    (hkeys : (self.tables.map Table.object).Nodup) :
    Layout.refresh self account_like history_blocks site =
      if (self.tables.filter fun t => t.is_account_like != account_like.contains t.name) = []
          ∧ site = self.site ∧ history_blocks = self.history_blocks then
        self
      else
        { self with
          tables := self.tables.map fun t =>
            if t.is_account_like != account_like.contains t.name then
              { t with is_account_like := account_like.contains t.name }
            else t,
          site := site,
          history_blocks := history_blocks } := by
  unfold Layout.refresh
  dsimp only
  by_cases hcond : (self.tables.filter
      fun t => t.is_account_like != account_like.contains t.name) = []
        ∧ site = self.site ∧ history_blocks = self.history_blocks
  · rw [if_pos hcond, if_pos hcond]
  · rw [if_neg hcond, if_neg hcond]
    have hnd : ((self.tables.filter
        fun t => t.is_account_like != account_like.contains t.name).map Table.object).Nodup :=
      List.Nodup.sublist ((List.filter_sublist self.tables).map Table.object) hkeys
    rw [foldl_tablesInsert (fun t => { t with is_account_like := account_like.contains t.name })
      (fun t => rfl) _ self.tables
      (fun t ht => List.mem_map_of_mem Table.object (List.mem_of_mem_filter ht)) hnd]
    have htab : (self.tables.map fun u =>
        match (self.tables.filter
            fun t => t.is_account_like != account_like.contains t.name).find?
              (fun t => t.object = u.object) with
        | some t => { t with is_account_like := account_like.contains t.name }
        | none => u) =
        self.tables.map fun t =>
          if t.is_account_like != account_like.contains t.name then
            { t with is_account_like := account_like.contains t.name }
          else t := by
      apply List.map_congr_left
      intro u hu
      rw [find_filter_object _ self.tables u hu hkeys]
      by_cases hp : u.is_account_like != account_like.contains u.name
      · rw [if_pos hp, if_pos hp]
      · rw [if_neg hp, if_neg hp]
    rw [htab]

/-- Witness for C9: the changed branch at a concrete layout whose single
table becomes account-like. -/
theorem c9_witness :
    Layout.refresh demoLayout ["imm"] 50 demoSite =
      if (demoLayout.tables.filter
          fun t => t.is_account_like != (["imm"].contains t.name)) = []
          ∧ demoSite = demoLayout.site ∧ (50 : Int) = demoLayout.history_blocks then
        demoLayout
      else
        { demoLayout with
          tables := demoLayout.tables.map fun t =>
            if t.is_account_like != (["imm"].contains t.name) then
              { t with is_account_like := (["imm"].contains t.name) }
            else t,
          site := demoSite,
          history_blocks := 50 } :=
  c9_refresh_sharing demoLayout ["imm"] 50 demoSite (by simp [demoLayout])

/-- Re-attaching the peeked head to the iterator tail recovers the
stream. -/
theorem optCons_head_tail (l : List α) : optCons l.head? l.tail = l := by
  cases l <;> rfl

/-- A stream whose peek is empty has an empty iterator. -/
theorem head_none_tail (l : List α) : l.head? = none → l.tail = [] := by
  cases l <;> simp

/-- The merge loop of `find_range` folds the spec-side sorted merge of the
two streams into the per-block map. -/
theorem find_range_loop_eq (ln un : Option EntityDataExt) (li ui : List EntityDataExt)
    (acc : List (Int × List EntitySourceOperation))
    (hl : ln = none → li = []) (hu : un = none → ui = []) :
    find_range_loop ln un li ui acc =
      (merge_streams (optCons ln li) (optCons un ui)).foldl
        (fun m p => insert_op m p.2 p.1) acc := by
  revert hl hu
  induction ln, un, li, ui, acc using find_range_loop.induct with
  | case1 li ui acc =>
    intro hl hu
    rw [hl rfl, hu rfl]
    simp [find_range_loop, merge_streams, optCons]
  | case2 li ui acc lower ih =>
    intro hl hu
    have hui : ui = [] := hu rfl
    subst hui
    simp only [find_range_loop, optCons, merge_streams, List.foldl_cons]
    rw [ih (head_none_tail li) (fun _ => rfl), optCons_head_tail]
    rfl
  | case3 li ui acc upper ih =>
    intro hl hu
    have hli : li = [] := hl rfl
    subst hli
    simp only [find_range_loop, optCons, merge_streams, List.foldl_cons]
    rw [ih (fun _ => rfl) (head_none_tail ui), optCons_head_tail]
    rfl
  | case4 li ui acc lower upper hcmp ih =>
    intro hl hu
    simp only [find_range_loop, optCons, hcmp]
    simp only [merge_streams, hcmp, List.foldl_cons]
    rw [ih (fun h => nomatch h) (head_none_tail ui), optCons_head_tail]
    rfl
  | case5 li ui acc lower upper hcmp ih =>
    intro hl hu
    simp only [find_range_loop, optCons, hcmp]
    simp only [merge_streams, hcmp, List.foldl_cons]
    rw [ih (head_none_tail li) (fun h => nomatch h), optCons_head_tail]
    rfl
  | case6 li ui acc lower upper hcmp ih =>
    intro hl hu
    simp only [find_range_loop, optCons, hcmp]
    simp only [merge_streams, hcmp, List.foldl_cons]
    rw [ih (head_none_tail li) (head_none_tail ui), optCons_head_tail, optCons_head_tail]

/-- Every key of the per-block map after an insertion is the inserted
block or one of the previous keys. -/
theorem insert_op_mem_keys (b : Int) (op : EntitySourceOperation) :
    ∀ m q, q ∈ insert_op m b op → q.1 = b ∨ q.1 ∈ m.map Prod.fst := by
  intro m
  induction m with
  | nil =>
    intro q hq
    simp only [insert_op, List.mem_singleton] at hq
    subst hq
    exact Or.inl rfl
  | cons hd rest ih =>
    intro q hq
    rcases hd with ⟨bh, ops⟩
    simp only [insert_op] at hq
    by_cases h1 : b = bh
    · rw [if_pos h1] at hq
      rcases List.mem_cons.mp hq with hq1 | hq2
      · subst hq1; right; simp
      · right; simp only [List.map_cons, List.mem_cons]; right
        exact List.mem_map_of_mem Prod.fst hq2
    · rw [if_neg h1] at hq
      by_cases h2 : b < bh
      · rw [if_pos h2] at hq
        rcases List.mem_cons.mp hq with hq1 | hq2
        · subst hq1; exact Or.inl rfl
        · right
          simpa using List.mem_map_of_mem Prod.fst hq2
      · rw [if_neg h2] at hq
        rcases List.mem_cons.mp hq with hq1 | hq2
        · subst hq1; right; simp
        · rcases ih q hq2 with hb | hrest
          · exact Or.inl hb
          · right; simp only [List.map_cons, List.mem_cons]; exact Or.inr hrest

/-- Inserting into a per-block map with strictly ascending keys keeps the
keys strictly ascending. -/
theorem insert_op_keys_sorted (b : Int) (op : EntitySourceOperation) :
    ∀ m, List.Pairwise (fun p q : Int × List EntitySourceOperation => p.1 < q.1) m →
      List.Pairwise (fun p q : Int × List EntitySourceOperation => p.1 < q.1)
        (insert_op m b op) := by
  intro m
  induction m with
  | nil => intro _; simp [insert_op]
  | cons hd rest ih =>
    intro hp
    obtain ⟨hhd, hrest⟩ := List.pairwise_cons.mp hp
    rcases hd with ⟨bh, ops⟩
    simp only [insert_op]
    by_cases h1 : b = bh
    · rw [if_pos h1]
      exact List.pairwise_cons.mpr ⟨fun q hq => hhd q hq, hrest⟩
    · rw [if_neg h1]
      by_cases h2 : b < bh
      · rw [if_pos h2]
        refine List.pairwise_cons.mpr ⟨?_, hp⟩
        intro q hq
        rcases List.mem_cons.mp hq with hq1 | hq2
        · subst hq1; exact h2
        · exact lt_trans h2 (hhd q hq2)
      · rw [if_neg h2]
        have hbh : bh < b := by omega
        refine List.pairwise_cons.mpr ⟨?_, ih hrest⟩
        intro q hq
        rcases insert_op_mem_keys b op rest q hq with hqb | hqrest
        · rw [hqb]; exact hbh
        · rcases List.mem_map.mp hqrest with ⟨p, hpmem, hpeq⟩
          rw [← hpeq]
          exact hhd p hpmem

/-- Folding merge output into the per-block map keeps the keys strictly
ascending. -/
theorem foldl_insert_op_sorted :
    ∀ (ps : List (EntitySourceOperation × Int)) (m : List (Int × List EntitySourceOperation)),
      List.Pairwise (fun p q : Int × List EntitySourceOperation => p.1 < q.1) m →
      List.Pairwise (fun p q : Int × List EntitySourceOperation => p.1 < q.1)
        (ps.foldl (fun m p => insert_op m p.2 p.1) m) := by
  intro ps
  induction ps with
  | nil => intro m hm; exact hm
  | cons p ps ih =>
    intro m hm
    rw [List.foldl_cons]
    exact ih _ (insert_op_keys_sorted p.2 p.1 m hm)

/-- C2: the merge loop of `find_range` equals the spec-side description —
sorted merge of the two bound-side streams emitting Create on a strictly
earlier lower head, Delete on a strictly earlier upper head, Modify on an
exact tie, draining the leftover stream, grouped by block — and in the
result each block bucket is sorted by ascending version id and the blocks
themselves ascend. -/
theorem c2_find_range_merge (lower_vec upper_vec : List EntityDataExt) :
    Layout.find_range lower_vec upper_vec = find_range_spec lower_vec upper_vec ∧
    (∀ bo ∈ Layout.find_range lower_vec upper_vec, List.Sorted vidLe bo.2) ∧
    List.Pairwise (fun p q : Int × List EntitySourceOperation => p.1 < q.1)
      (Layout.find_range lower_vec upper_vec) := by
  have hloop : find_range_loop lower_vec.head? upper_vec.head?
      lower_vec.tail upper_vec.tail [] =
      (merge_streams lower_vec upper_vec).foldl (fun m p => insert_op m p.2 p.1) [] := by
    rw [find_range_loop_eq _ _ _ _ _ (head_none_tail lower_vec) (head_none_tail upper_vec)]
    rw [optCons_head_tail, optCons_head_tail]
  refine ⟨?_, ?_, ?_⟩
  · unfold Layout.find_range find_range_spec
    rw [hloop]
  · intro bo hbo
    unfold Layout.find_range at hbo
    rcases List.mem_map.mp hbo with ⟨p, _, hpe⟩
    rw [← hpe]
    exact List.sorted_insertionSort vidLe p.2
  · unfold Layout.find_range
    apply List.Pairwise.map
    · intro a b hab
      exact hab
    · rw [hloop]
      exact foldl_insert_op_sorted (merge_streams lower_vec upper_vec) [] List.Pairwise.nil

/-- A concrete bound-side row for the C2 witness. -/
def demoEDE : EntityDataExt :=
  { entity := "Imm", id := "a", data := "d", block_number := 3, vid := 7 }

/-- Witness for C2: the per-bucket sortedness conjunct applied to the one
bucket `find_range` produces on a singleton lower stream. -/
theorem c2_witness :
    List.Sorted vidLe
      ((3 : Int),
        [({ entity_op := .create, entity_type := "Imm", entity := "d", vid := 7 } :
          EntitySourceOperation)]).2 :=
  (c2_find_range_merge [demoEDE] []).2.1
    (3, [{ entity_op := .create, entity_type := "Imm", entity := "d", vid := 7 }])
    (by
      unfold Layout.find_range
      simp only [List.head?, List.tail]
      rw [show find_range_loop (some demoEDE) none [] [] [] =
          find_range_loop [].head? none [].tail [] (insert_op []
            (transform_row demoEDE .create).2 (transform_row demoEDE .create).1)
        from by simp only [find_range_loop]]
      simp [find_range_loop, insert_op, transform_row, demoEDE,
        List.insertionSort, List.orderedInsert])

end Relational
